import Mathlib

/-!
Shallow embedding of `pibooth/controls/camera/opencv.py` (class `CvCamera`).

Images are row lists of pixels; a raw device frame is in BGR channel order,
the pipeline converts it to RGB.  Machine `uint8` arithmetic is modelled with
`Nat` and explicit `% 256` where the source relies on numpy wrap-around.
External OpenCV primitives (`cv2.flip`, `cv2.cvtColor`, `cv2.threshold`,
`cv2.resize`) are modelled by their documented behaviour; the pieces of the
repository that are not part of the source file at hand (the sizing helpers,
`PoolingTimer`, the `BaseCamera` overlay builder and capture driver) are
modelled from the specification and marked as such.
-/

namespace PiboothCv

/-- An RGB pixel: three `uint8` channels. -/
abbrev RGB := ℕ × ℕ × ℕ

/-- An RGBA pixel: four `uint8` channels, alpha last. -/
abbrev RGBA := ℕ × ℕ × ℕ × ℕ

/-- An image: list of rows, each row a list of RGB pixels. -/
abbrev Img := List (List RGB)

/-- An RGBA image (the rendered overlay layer). -/
abbrev ImgA := List (List RGBA)

/-- Number of rows (`image.shape[0]`). -/
def imgHeight (image : List (List α)) : ℕ := image.length

/-- Number of columns of the first row (`image.shape[1]`). -/
def imgWidth (image : List (List α)) : ℕ := (image.headD []).length

/-- cv2.flip: flipCode > 0 mirrors around the vertical axis (each row is
reversed), flipCode = 0 mirrors around the horizontal axis (the row order is
reversed), flipCode < 0 does both. -/
def cvFlip (image : Img) (flipCode : ℤ) : Img :=
  if 0 < flipCode then image.map List.reverse
  else if flipCode = 0 then image.reverse
  else (image.map List.reverse).reverse

/-- cv2.cvtColor with COLOR_BGR2RGB: swap the first and third channel. -/
def bgr2rgb (image : Img) : Img :=
  image.map (List.map fun p => (p.2.2, p.2.1, p.1))

/-- Grayscale value of an RGBA pixel under cv2.cvtColor COLOR_RGBA2GRAY:
the alpha channel is ignored and the RGB channels are combined with OpenCV's
fixed-point ITU-R 601 weights (4899, 9617, 1868, shift 14, round half up). -/
def rgbaGray (p : RGBA) : ℕ :=
  (4899 * p.1 + 9617 * p.2.1 + 1868 * p.2.2.1 + 8192) / 16384

/-- cv2.cvtColor with COLOR_RGBA2GRAY applied to a whole image. -/
def cvtRGBA2GRAY (image : ImgA) : List (List ℕ) :=
  image.map (List.map rgbaGray)

/-- cv2.cvtColor with COLOR_RGBA2RGB: drop the alpha channel. -/
def cvtRGBA2RGB (image : ImgA) : Img :=
  image.map (List.map fun p => (p.1, p.2.1, p.2.2.1))

/-- cv2.threshold with THRESH_BINARY_INV: a value strictly above the threshold
becomes 0, every other value becomes maxval. -/
def cvThresholdBinaryInv (thresh maxval : ℕ) (image : List (List ℕ)) : List (List ℕ) :=
  image.map (List.map fun v => if thresh < v then 0 else maxval)

/-- np.repeat(mask, 3).reshape((height, width, 3)): broadcast the 1-channel
mask to 3 identical channels per pixel. -/
def repeat3 (mask : List (List ℕ)) : Img :=
  mask.map (List.map fun m => (m, m, m))

/-- cv2.resize to dsize = (width, height): the output has exactly the
requested size.  Pixel values are modelled by nearest sampling; the claims
below depend only on the dimensions, not on the interpolation kernel. -/
def cvResize (image : Img) (size : ℕ × ℕ) : Img :=
  (List.range size.2).map fun r =>
    (List.range size.1).map fun c =>
      (image.getD (r * image.length / size.2) []).getD (c * imgWidth image / size.1) (0, 0, 0)

/-- numpy slice `image[t:b, l:r]`. -/
def imgSlice (image : Img) (l t r b : ℕ) : Img :=
  ((image.drop t).take (b - t)).map fun row => (row.drop l).take (r - l)

/-- uint8 addition with numpy wrap-around. -/
def uint8Add (a b : ℕ) : ℕ := (a + b) % 256

/-- uint8 multiplication with numpy wrap-around. -/
def uint8Mul (a b : ℕ) : ℕ := (a * b) % 256

/-- Pointwise pixel addition (numpy `+=` on uint8 images). -/
def pxAdd (p q : RGB) : RGB :=
  (uint8Add p.1 q.1, uint8Add p.2.1 q.2.1, uint8Add p.2.2 q.2.2)

/-- Pointwise pixel multiplication (numpy `*=` on uint8 images). -/
def pxMul (p q : RGB) : RGB :=
  (uint8Mul p.1 q.1, uint8Mul p.2.1 q.2.1, uint8Mul p.2.2 q.2.2)

/-- Pointwise combination of two same-shaped images. -/
def imgZipWith (f : RGB → RGB → RGB) (a b : Img) : Img :=
  List.zipWith (List.zipWith f) a b

/-- Modelled from the spec: `pibooth.pictures.sizing.new_size_keep_aspect_ratio`
with the 'outer' mode is not part of the source file under scrutiny; per the
spec it returns the smallest size that preserves the source aspect ratio while
covering (being at least as large as) the target box in both dimensions. -/
def fit_outer (source target : ℕ × ℕ) : ℕ × ℕ :=
  let s : ℚ := max ((target.1 : ℚ) / (source.1 : ℚ)) ((target.2 : ℚ) / (source.2 : ℚ))
  (⌈(source.1 : ℚ) * s⌉.toNat, ⌈(source.2 : ℚ) * s⌉.toNat)

/-- Modelled from the spec: `pibooth.pictures.sizing.new_size_by_croping` is
not part of the source file under scrutiny; per the spec it returns the
centered rectangle (left, top, right, bottom) of exactly the target size. -/
def center_crop (current target : ℕ × ℕ) : ℕ × ℕ × ℕ × ℕ :=
  ((current.1 - target.1) / 2, (current.2 - target.2) / 2,
   (current.1 - target.1) / 2 + target.1, (current.2 - target.2) / 2 + target.2)

/-- CvCamera._fit_to_resolution: resize with the 'outer' aspect-keeping size,
then crop the centered rectangle of the configured device resolution. -/
def fit_to_resolution (resolution : ℕ × ℕ) (image : Img) : Img :=
  let size := fit_outer (imgWidth image, imgHeight image) resolution
  let resized := cvResize image size
  let c := center_crop (imgWidth resized, imgHeight resized) resolution
  imgSlice resized c.1 c.2.1 c.2.2.1 c.2.2.2

/-- Python `str()` applied to the optional effect argument: `None` prints as
the string "None", a string prints as itself. -/
def pyStr : Option String → String
  | none => "None"
  | some s => s

/-- Python `str.lower()` as used on effect names (ASCII): lowercase every
character. -/
def pyLower (s : String) : String := String.mk (s.data.map Char.toLower)

/-- Python `int()` on a rational: truncation toward zero. -/
def pyIntQ (q : ℚ) : ℤ := if 0 ≤ q then ⌊q⌋ else ⌈q⌉

/-- Errors surfaced by the camera operations. -/
inductive CamError where
  | valueError (msg : String)
  | ioError (msg : String)
deriving DecidableEq

/-- Message of the invalid-effect ValueError (the Python message also lists
the available choices). -/
def invalidEffectMsg (effect : String) : String :=
  "Invalid capture effect " ++ effect

/-- CvCamera.IMAGE_EFFECTS: the fixed enumerated effect set. -/
def IMAGE_EFFECTS : List String :=
  ["none", "blur", "contour", "detail", "edge_enhance", "edge_enhance_more",
   "emboss", "find_edges", "smooth", "smooth_more", "sharpen"]

/-- Lookup in the `_captures` dict (first binding with the given key). -/
def dictLookup (m : List (String × α)) (k : String) : Option α :=
  match m with
  | [] => none
  | kv :: rest => if kv.1 = k then some kv.2 else dictLookup rest k

/-- Python dict assignment `m[k] = v`: replace the binding of `k` in place if
present, append it otherwise. -/
def dictInsert (m : List (String × α)) (k : String) (v : α) : List (String × α) :=
  match m with
  | [] => [(k, v)]
  | kv :: rest => if kv.1 = k then (k, v) :: rest else kv :: dictInsert rest k v

/-- Removal of a key from the dict. -/
def dictErase (m : List (String × α)) (k : String) : List (String × α) :=
  m.filter fun kv => !decide (kv.1 = k)

/-- Keys of the dict. -/
def dictKeys (m : List (String × α)) : List String := m.map Prod.fst

/-- The dict has pairwise distinct keys (true of every Python dict). -/
def NodupKeys (m : List (String × α)) : Prop := (dictKeys m).Nodup

/-- Number of bindings of a key. -/
def countKey (m : List (String × α)) (k : String) : ℕ :=
  (m.filter fun kv => decide (kv.1 = k)).length

/-- The display viewport rectangle returned by `self.get_rect()`. -/
structure Rect where
  width : ℕ
  height : ℕ

/-- The cv2.VideoCapture handle. -/
structure CamHandle where
  opened : Bool

/-- cv2.VideoCapture.release: closes the device; per the OpenCV contract it is
a no-op on an already-closed or never-opened handle and never raises. -/
def videoCaptureRelease (h : CamHandle) : CamHandle := { h with opened := false }

/-- The successive results of `self._cam.read()`: `none` is a failed read
(`ret` false), `some frame` a successful one.  Reading consumes the head. -/
def camRead (frames : List (Option Img)) : Option Img × List (Option Img) :=
  match frames with
  | [] => (none, [])
  | f :: rest => (f, rest)

/-- The mutable state of a `CvCamera` instance (resolution and flip flags from
`__init__`, `_window` / `_overlay` / `_overlay_mask` preview state, and the
`_captures` pending-capture dict inherited from `BaseCamera`). -/
structure CamSession where
  resolution : ℕ × ℕ
  preview_hflip : Bool
  capture_hflip : Bool
  window : Option Rect
  overlay : Option Img
  overlay_mask : Option Img
  captures : List (String × (Img × String))
  cam : CamHandle

/-- Mask computation of CvCamera._show_overlay: grayscale of the rendered
RGBA overlay, THRESH_BINARY_INV at threshold 10 with maxval 1, broadcast to
3 channels. -/
def overlayMask (rendered : ImgA) : Img :=
  repeat3 (cvThresholdBinaryInv 10 1 (cvtRGBA2GRAY rendered))

/-- Overlay of CvCamera._show_overlay with the alpha channel removed. -/
def overlayRGB (rendered : ImgA) : Img := cvtRGBA2RGB rendered

/-- CvCamera._show_overlay: when a window is bound, store the binary mask and
the alpha-free overlay computed from the rendered RGBA layer (`rendered` is
the np.array of the `build_overlay` result of the base class, which is not
part of the source file under scrutiny and is therefore a parameter here). -/
def show_overlay (s : CamSession) (rendered : ImgA) : CamSession :=
  if s.window.isSome then
    { s with overlay_mask := some (overlayMask rendered),
             overlay := some (overlayRGB rendered) }
  else s

/-- Preview flip step of CvCamera._get_preview_image: cv2.flip with code 1. -/
def preview_flip_step (hflip : Bool) (image : Img) : Img :=
  if hflip then cvFlip image 1 else image

/-- Capture flip step of CvCamera._post_process_capture: cv2.flip with
code 0. -/
def capture_flip_step (hflip : Bool) (image : Img) : Img :=
  if hflip then cvFlip image 0 else image

/-- CvCamera._get_preview_image: read a frame (a failed read returns no
image), convert to RGB, fit to the device resolution, optionally flip,
resize to the viewport and composite the overlay through the binary mask
(the mask is always stored together with the overlay by _show_overlay). -/
def get_preview_image (s : CamSession) (rect : Rect) (dev : List (Option Img)) :
    List (Option Img) × Option Img :=
  match camRead dev with
  | (none, dev') => (dev', none)
  | (some image, dev') =>
      let image := bgr2rgb image
      let image := fit_to_resolution s.resolution image
      let image := preview_flip_step s.preview_hflip image
      let size := fit_outer (imgWidth image, imgHeight image) (rect.width, rect.height)
      let image := cvResize image size
      let image :=
        match s.overlay, s.overlay_mask with
        | some ov, some mask => imgZipWith pxAdd (imgZipWith pxMul image mask) ov
        | _, _ => image
      (dev', some image)

/-- Transform chain of CvCamera._post_process_capture on the pending frame:
convert to RGB, fit to the device resolution, optionally flip; the named
effect is explicitly stubbed in the source (`pass`), so it is a no-op. -/
def post_process_pipeline (resolution : ℕ × ℕ) (hflip : Bool) (image : Img)
    (effect : String) : Img :=
  let image := bgr2rgb image
  let image := fit_to_resolution resolution image
  let image := capture_flip_step hflip image
  image

/-- CvCamera._post_process_capture: look up the pending capture for the path
and rework it (the `cv2.imwrite` to the filesystem is outside the model);
a missing key is Python's KeyError, modelled as `none`. -/
def post_process_capture (s : CamSession) (path : String) : Option Img :=
  (dictLookup s.captures path).map fun ie =>
    post_process_pipeline s.resolution s.capture_hflip ie.1 ie.2

/-- Modelled from the spec: the capture driver of the missing base module
invokes the post-processing for a pending destination and consumes the entry,
so that it is processed exactly once. -/
def consume_capture (s : CamSession) (path : String) : Option (CamSession × Img) :=
  match post_process_capture s path with
  | none => none
  | some out => some ({ s with captures := dictErase s.captures path }, out)

/-- CvCamera.capture: normalize the effect with str().lower(), reject an
effect outside IMAGE_EFFECTS before touching the device, read one frame
(IOError if the read fails), store the pending capture keyed by the path and
clear any active overlay (the base `_hide_overlay`; the 0.5 s sleep is real
time and outside the model). -/
def capture (s : CamSession) (dev : List (Option Img)) (filename : String)
    (effect : Option String) :
    (CamSession × List (Option Img)) × Option CamError :=
  let eff := pyLower (pyStr effect)
  if eff ∉ IMAGE_EFFECTS then
    ((s, dev), some (CamError.valueError (invalidEffectMsg eff)))
  else
    match camRead dev with
    | (none, dev') => ((s, dev'), some (CamError.ioError "Can not capture frame"))
    | (some image, dev') =>
        (({ s with captures := dictInsert s.captures filename (image, eff),
                   overlay := none, overlay_mask := none }, dev'), none)

/-- CvCamera.quit: the `if self._cam` guard always holds for a constructed
session (a VideoCapture object is truthy), and cv2's release never raises,
also on an already-released handle. -/
def quit (s : CamSession) : Except CamError CamSession :=
  Except.ok { s with cam := videoCaptureRelease s.cam }

/-- Observable actions of the countdown and wait loops: an overlay re-render
(`_show_overlay` with the given text) or a preview frame handed to the
display sink (`show_image`). -/
inductive Ev where
  | render (text : String)
  | frame
deriving DecidableEq

/-- Texts of the overlay renders among a list of events. -/
def renderTexts : List Ev → List String
  | [] => []
  | Ev.render s :: rest => s :: renderTexts rest
  | Ev.frame :: rest => renderTexts rest

/-- Loop of CvCamera.preview_countdown, driven by the successive values that
`timer.remaining()` yields at each poll (modelled from the spec:
`PoolingTimer` is not part of the source file under scrutiny; per the spec it
tracks a fixed duration, `is_timeout()` holding exactly when the remaining
time is no longer positive).  `ov` is the current `self._overlay` text, `t`
the mutated `timeout` local; an exhausted trace means the loop is still
running (`none`).  On exit the localized smile prompt is rendered and one
final frame is displayed. -/
def countdown_loop (smile : String) : List ℚ → Option String → ℤ → Option (List Ev)
  | [], _, _ => none
  | r :: rs, ov, t =>
      if r ≤ 0 then some [Ev.render smile, Ev.frame]
      else
        let d := pyIntQ (r + 1)
        if ov = none ∨ d ≠ t then
          (countdown_loop smile rs (some (toString d)) d).map
            fun rest => Ev.render (toString d) :: Ev.frame :: rest
        else
          (countdown_loop smile rs ov t).map fun rest => Ev.frame :: rest

/-- Loop of CvCamera.preview_wait: same trace model, no countdown overlays. -/
def wait_loop (smile : String) : List ℚ → Option (List Ev)
  | [] => none
  | r :: rs =>
      if r ≤ 0 then some [Ev.render smile, Ev.frame]
      else (wait_loop smile rs).map fun rest => Ev.frame :: rest

/-- CvCamera.preview_countdown: truncate the timeout, reject a value below 1,
then run the countdown loop (`smile` is the localized smile prompt looked up
in the language table of the base module, `alpha` the overlay opacity
forwarded to the overlay builder, `ov0` the overlay text active on entry). -/
def preview_countdown (smile : String) (timeout alpha : ℚ) (ov0 : Option String)
    (trace : List ℚ) : Except CamError (Option (List Ev)) :=
  let t := pyIntQ timeout
  if t < 1 then Except.error (CamError.valueError "Start time shall be greater than 0")
  else Except.ok (countdown_loop smile trace ov0 t)

/-- CvCamera.preview_wait: same validation, loop without countdown
overlays. -/
def preview_wait (smile : String) (timeout alpha : ℚ)
    (trace : List ℚ) : Except CamError (Option (List Ev)) :=
  let t := pyIntQ timeout
  if t < 1 then Except.error (CamError.valueError "Start time shall be greater than 0")
  else Except.ok (wait_loop smile trace)

/-- A concrete session used to instantiate hypotheses of the theorems. -/
def testSession : CamSession :=
  { resolution := (1920, 1080), preview_hflip := false, capture_hflip := false,
    window := none, overlay := none, overlay_mask := none,
    captures := [], cam := { opened := true } }

lemma getD_map_lt (f : α → β) (l : List α) (n : ℕ) (d : β) (dflt : α)
    (h : n < l.length) : (l.map f).getD n d = f (l.getD n dflt) := by
  induction l generalizing n with
  | nil => exact absurd h (by simp)
  | cons a as ih =>
      cases n with
      | zero => rfl
      | succ m =>
          simp only [List.map_cons, List.getD_cons_succ]
          exact ih m (by simpa using h)

lemma getD_reverse (l : List α) (c : ℕ) (d : α) (h : c < l.length) :
    l.reverse.getD c d = l.getD (l.length - 1 - c) d := by
  have h' : c < l.reverse.length := by simpa using h
  rw [List.getD_eq_getElem l.reverse d h', List.getD_eq_getElem l d (by omega)]
  exact List.getElem_reverse ..

lemma dictLookup_dictInsert_self (m : List (String × α)) (k : String) (v : α) :
    dictLookup (dictInsert m k v) k = some v := by
  induction m with
  | nil => simp [dictInsert, dictLookup]
  | cons kv rest ih =>
      by_cases h : kv.1 = k
      · simp [dictInsert, h, dictLookup]
      · simp [dictInsert, h, dictLookup, ih]

lemma dictLookup_cons (kv : String × α) (rest : List (String × α)) (k : String) :
    dictLookup (kv :: rest) k = if kv.1 = k then some kv.2 else dictLookup rest k := rfl

lemma dictInsert_cons (kv : String × α) (rest : List (String × α)) (k : String) (v : α) :
    dictInsert (kv :: rest) k v =
      if kv.1 = k then (k, v) :: rest else kv :: dictInsert rest k v := rfl

lemma dictLookup_dictInsert_ne (m : List (String × α)) (k k' : String) (v : α)
    (h : k' ≠ k) : dictLookup (dictInsert m k v) k' = dictLookup m k' := by
  have hkk : ¬ k = k' := fun hh => h hh.symm
  induction m with
  | nil => simp [dictInsert, dictLookup, hkk]
  | cons kv rest ih =>
      rw [dictInsert_cons]
      by_cases hk : kv.1 = k
      · rw [if_pos hk, dictLookup_cons, dictLookup_cons,
          if_neg hkk, if_neg (fun hh => hkk (hk.symm.trans hh))]
      · rw [if_neg hk, dictLookup_cons, dictLookup_cons, ih]

lemma dictKeys_cons (kv : String × α) (rest : List (String × α)) :
    dictKeys (kv :: rest) = kv.1 :: dictKeys rest := rfl

lemma dictKeys_dictInsert (m : List (String × α)) (k : String) (v : α) :
    dictKeys (dictInsert m k v) =
      if k ∈ dictKeys m then dictKeys m else dictKeys m ++ [k] := by
  induction m with
  | nil => simp [dictInsert, dictKeys]
  | cons kv rest ih =>
      rw [dictInsert_cons]
      by_cases hk : kv.1 = k
      · rw [if_pos hk, dictKeys_cons, dictKeys_cons,
          if_pos (by rw [List.mem_cons]; exact Or.inl hk.symm)]
        simp [hk]
      · rw [if_neg hk, dictKeys_cons, dictKeys_cons, ih]
        have hne : ¬ k = kv.1 := fun hh => hk hh.symm
        by_cases hm : k ∈ dictKeys rest
        · rw [if_pos hm, if_pos (by rw [List.mem_cons]; exact Or.inr hm)]
        · have hnm : k ∉ kv.1 :: dictKeys rest := by
            rw [List.mem_cons]
            rintro (hh | hh)
            · exact hne hh
            · exact hm hh
          rw [if_neg hm, if_neg hnm, List.cons_append]

lemma nodupKeys_dictInsert (m : List (String × α)) (k : String) (v : α)
    (h : NodupKeys m) : NodupKeys (dictInsert m k v) := by
  rw [NodupKeys, dictKeys_dictInsert]
  by_cases hm : k ∈ dictKeys m
  · rwa [if_pos hm]
  · rw [if_neg hm, List.nodup_append]
    exact ⟨h, List.nodup_singleton k, fun a ha hb => hm (by
      rw [List.mem_singleton] at hb
      exact hb ▸ ha)⟩

lemma countKey_cons (kv : String × α) (rest : List (String × α)) (k : String) :
    countKey (kv :: rest) k = (if kv.1 = k then 1 else 0) + countKey rest k := by
  by_cases h : kv.1 = k <;>
    simp [countKey, List.filter_cons, h, Nat.add_comm]

lemma countKey_eq_zero_of_not_mem (m : List (String × α)) (k : String)
    (h : k ∉ dictKeys m) : countKey m k = 0 := by
  induction m with
  | nil => rfl
  | cons kv rest ih =>
      rw [dictKeys_cons, List.mem_cons] at h
      push_neg at h
      rw [countKey_cons, if_neg (fun hh => h.1 hh.symm), ih h.2]

lemma countKey_dictInsert (m : List (String × α)) (k : String) (v : α)
    (h : NodupKeys m) : countKey (dictInsert m k v) k = 1 := by
  induction m with
  | nil => simp [dictInsert, countKey, List.filter_cons]
  | cons kv rest ih =>
      rw [NodupKeys, dictKeys_cons, List.nodup_cons] at h
      obtain ⟨hnot, hrest⟩ := h
      by_cases hk : kv.1 = k
      · rw [show dictInsert (kv :: rest) k v = (k, v) :: rest by simp [dictInsert, hk]]
        rw [countKey_cons, if_pos rfl,
          countKey_eq_zero_of_not_mem rest k (hk ▸ hnot)]
      · rw [show dictInsert (kv :: rest) k v = kv :: dictInsert rest k v by
              simp [dictInsert, hk]]
        rw [countKey_cons, if_neg hk, ih hrest]

lemma dictLookup_dictErase_self (m : List (String × α)) (k : String) :
    dictLookup (dictErase m k) k = none := by
  induction m with
  | nil => rfl
  | cons kv rest ih =>
      by_cases h : kv.1 = k
      · simpa [dictErase, List.filter_cons, h] using ih
      · simpa [dictErase, List.filter_cons, h, dictLookup] using ih

lemma overlayMask_eq (ov : ImgA) :
    overlayMask ov = ov.map (List.map fun p =>
      if 10 < rgbaGray p then ((0 : ℕ), (0 : ℕ), (0 : ℕ)) else (1, 1, 1)) := by
  unfold overlayMask repeat3 cvThresholdBinaryInv cvtRGBA2GRAY
  rw [List.map_map, List.map_map]
  congr 1
  funext row
  simp only [Function.comp, List.map_map]
  congr 1
  funext p
  by_cases h : 10 < rgbaGray p <;> simp [h, Function.comp]

/-- C1 (amended): for every rendered overlay layer the mask produced by the
overlay render step is strictly binary and broadcast to 3 channels, and a
pixel gets value 0 exactly when the grayscale luminance of its RGB channels
(alpha ignored) is strictly above the fixed threshold 10/255, value 1
otherwise — overlay-present pixels are marked 0 (they blank the underlying
frame before the overlay is added), the inverse of the spelled-out polarity,
and the thresholded quantity is luminance rather than opacity. -/
theorem overlay_mask_binary_3ch (ov : ImgA) :
    (overlayMask ov).length = ov.length ∧
    (∀ row ∈ overlayMask ov, ∀ p ∈ row,
        p = ((0 : ℕ), (0 : ℕ), (0 : ℕ)) ∨ p = (1, 1, 1)) ∧
    (∀ r c : ℕ, r < ov.length → c < (ov.getD r []).length →
        ((overlayMask ov).getD r []).getD c (2, 2, 2) =
          if 10 < rgbaGray ((ov.getD r []).getD c (0, 0, 0, 0)) then (0, 0, 0)
          else (1, 1, 1)) := by
  refine ⟨by simp [overlayMask_eq], ?_, ?_⟩
  · rw [overlayMask_eq]
    intro row hrow p hp
    rcases List.mem_map.1 hrow with ⟨row₀, _, rfl⟩
    rcases List.mem_map.1 hp with ⟨q, _, rfl⟩
    by_cases h : 10 < rgbaGray q
    · exact Or.inl (by simp [h])
    · exact Or.inr (by simp [h])
  · intro r c hr hc
    rw [overlayMask_eq, getD_map_lt _ _ r [] [] hr, getD_map_lt _ _ c _ (0, 0, 0, 0) hc]

/-- Closed instance of `overlay_mask_binary_3ch` with its index bounds
discharged at a concrete rendered overlay. -/
theorem overlay_mask_binary_3ch_witness :
    ((overlayMask [[(200, 10, 3, 7)]]).getD 0 []).getD 0 (2, 2, 2) =
      if 10 < rgbaGray ((([[(200, 10, 3, 7)]] : ImgA).getD 0 []).getD 0 (0, 0, 0, 0))
      then (0, 0, 0) else (1, 1, 1) :=
  (overlay_mask_binary_3ch [[(200, 10, 3, 7)]]).2.2 0 0 (by decide) (by decide)

/-- C1 falls on the code: the rendered overlay pixel (255, 255, 255, 255) has
opacity 255, far above the 10/255 threshold, yet the mask marks it with 0 in
every channel instead of the claimed 1. -/
theorem overlay_mask_polarity_counterexample :
    (10 : ℕ) < 255 ∧
    ((overlayMask [[(255, 255, 255, 255)]]).getD 0 []).getD 0 (1, 1, 1) = (0, 0, 0) ∧
    ((0 : ℕ), (0 : ℕ), (0 : ℕ)) ≠ ((1 : ℕ), (1 : ℕ), (1 : ℕ)) := by
  refine ⟨by norm_num, by decide, by decide⟩

/-- C3: capture called with an effect name outside the enumerated set fails
with the invalid-argument ValueError before any device interaction — the
returned state and device stream are exactly the input ones, so no frame was
read and no pending-capture entry was created. -/
theorem capture_invalid_effect_rejected (s : CamSession) (dev : List (Option Img))
    (filename : String) (effect : Option String)
    (h : pyLower (pyStr effect) ∉ IMAGE_EFFECTS) :
    capture s dev filename effect =
      ((s, dev), some (CamError.valueError (invalidEffectMsg (pyLower (pyStr effect))))) := by
  simp only [capture]
  rw [if_pos h]

/-- Closed instance of `capture_invalid_effect_rejected` at a concrete bogus
effect name. -/
theorem capture_invalid_effect_rejected_witness :
    capture testSession [] "capture.jpg" (some "bogus-effect") =
      ((testSession, []),
        some (CamError.valueError (invalidEffectMsg (pyLower (pyStr (some "bogus-effect")))))) :=
  capture_invalid_effect_rejected testSession [] "capture.jpg" (some "bogus-effect")
    (by decide)

/-- C4: a failed device read during preview is non-fatal — the per-frame
preview render returns no image instead of raising — while a failed read
inside capture surfaces the device-read IOError to the caller with the
session state (hence the pending-capture mapping) unchanged. -/
theorem read_failure_handling :
    (∀ (s : CamSession) (rect : Rect) (rest : List (Option Img)),
        (get_preview_image s rect (none :: rest)).2 = none) ∧
    (∀ (s : CamSession) (rest : List (Option Img)) (filename : String)
        (effect : Option String),
        pyLower (pyStr effect) ∈ IMAGE_EFFECTS →
        capture s (none :: rest) filename effect =
          ((s, rest), some (CamError.ioError "Can not capture frame"))) := by
  constructor
  · intro s rect rest
    rfl
  · intro s rest filename effect h
    simp only [capture]
    rw [if_neg (not_not_intro h)]
    rfl

/-- Closed instance of `read_failure_handling` on a device stream whose next
read fails. -/
theorem read_failure_handling_witness :
    (get_preview_image testSession { width := 100, height := 100 } [none]).2 = none ∧
    capture testSession [none] "capture.jpg" (some "none") =
      ((testSession, []), some (CamError.ioError "Can not capture frame")) :=
  ⟨read_failure_handling.1 testSession { width := 100, height := 100 } [],
   read_failure_handling.2 testSession [] "capture.jpg" (some "none") (by decide)⟩

/-- C5: preview_countdown and preview_wait truncate the duration to an
integer and fail with the invalid-argument ValueError exactly when that
integer is below 1, before any device interaction or frame render (the error
is returned for every device/timer trace, with no events produced); in
particular every non-positive duration is rejected, and a truncated duration
of at least 1 is accepted. -/
theorem duration_validation :
    ∀ (smile : String) (q alpha : ℚ) (ov0 : Option String) (trace : List ℚ),
      (pyIntQ q < 1 →
        preview_countdown smile q alpha ov0 trace =
          Except.error (CamError.valueError "Start time shall be greater than 0") ∧
        preview_wait smile q alpha trace =
          Except.error (CamError.valueError "Start time shall be greater than 0")) ∧
      (q ≤ 0 → pyIntQ q < 1) ∧
      (1 ≤ pyIntQ q →
        preview_countdown smile q alpha ov0 trace =
          Except.ok (countdown_loop smile trace ov0 (pyIntQ q)) ∧
        preview_wait smile q alpha trace = Except.ok (wait_loop smile trace)) := by
  intro smile q alpha ov0 trace
  refine ⟨?_, ?_, ?_⟩
  · intro h
    constructor <;> simp [preview_countdown, preview_wait, if_pos h]
  · intro h
    rw [pyIntQ]
    by_cases h0 : (0 : ℚ) ≤ q
    · have : q = 0 := le_antisymm h h0
      subst this
      simp
    · rw [if_neg h0]
      have : ⌈q⌉ ≤ 0 := Int.ceil_le.2 (by push_cast; linarith)
      omega
  · intro h
    have h' : ¬ pyIntQ q < 1 := not_lt.2 h
    constructor <;> simp [preview_countdown, preview_wait, if_neg h']

/-- Closed instance of `duration_validation` at duration 0. -/
theorem duration_validation_witness :
    preview_countdown "Smile" 0 80 none [] =
      Except.error (CamError.valueError "Start time shall be greater than 0") ∧
    preview_wait "Smile" 0 80 [] =
      Except.error (CamError.valueError "Start time shall be greater than 0") :=
  (duration_validation "Smile" 0 80 none []).1 (by norm_num [pyIntQ])

/-- C6: with the preview flip flag set the preview pipeline mirrors the frame
around the vertical axis (the pixel at column c comes from column W-1-c of
the same row), while with the capture flip flag set the post-process pipeline
mirrors around the horizontal axis (row r comes from row H-1-r) — two
different mirror axes, as the concrete frame in the last conjunct shows. -/
theorem flip_axes_differ :
    (∀ (img : Img) (r c : ℕ), r < img.length → c < (img.getD r []).length →
        ((preview_flip_step true img).getD r []).getD c (0, 0, 0) =
          (img.getD r []).getD ((img.getD r []).length - 1 - c) (0, 0, 0)) ∧
    (∀ (img : Img) (r : ℕ), r < img.length →
        (capture_flip_step true img).getD r [] = img.getD (img.length - 1 - r) []) ∧
    preview_flip_step true [[(0, 0, 0), (1, 1, 1)]] ≠
      capture_flip_step true [[(0, 0, 0), (1, 1, 1)]] := by
  refine ⟨?_, ?_, by decide⟩
  · intro img r c hr hc
    show ((cvFlip img 1).getD r []).getD c (0, 0, 0) = _
    rw [show cvFlip img 1 = img.map List.reverse from rfl,
      getD_map_lt _ _ r [] [] hr, getD_reverse _ _ _ hc]
  · intro img r hr
    show (cvFlip img 0).getD r [] = _
    rw [show cvFlip img 0 = img.reverse from rfl, getD_reverse _ _ _ hr]

/-- Closed instance of `flip_axes_differ` with its index bounds discharged at
a concrete frame. -/
theorem flip_axes_differ_witness :
    ((preview_flip_step true [[(5, 5, 5), (7, 7, 7)]]).getD 0 []).getD 0 (0, 0, 0) =
      (([[(5, 5, 5), (7, 7, 7)]] : Img).getD 0 []).getD
        ((([[(5, 5, 5), (7, 7, 7)]] : Img).getD 0 []).length - 1 - 0) (0, 0, 0) ∧
    (capture_flip_step true [[(5, 5, 5), (7, 7, 7)]]).getD 0 [] =
      ([[(5, 5, 5), (7, 7, 7)]] : Img).getD
        (([[(5, 5, 5), (7, 7, 7)]] : Img).length - 1 - 0) [] :=
  ⟨flip_axes_differ.1 [[(5, 5, 5), (7, 7, 7)]] 0 0 (by decide) (by decide),
   flip_axes_differ.2.1 [[(5, 5, 5), (7, 7, 7)]] 0 (by decide)⟩

/-- C9: releasing the session twice in succession does not raise — quit
always succeeds, and quitting the already-released session succeeds again
and leaves it unchanged. -/
theorem quit_release_idempotent :
    ∀ s : CamSession, ∃ s' : CamSession, quit s = Except.ok s' ∧ quit s' = Except.ok s' :=
  fun s => ⟨_, rfl, rfl⟩

/-- C10: capture normalizes the effect argument with str().lower() before
validating it — the default None is accepted as the effect "none", the
mixed-case "BLUR" is accepted and stored as "blur", and any argument whose
lowercase form is outside the enumerated set is rejected. -/
theorem capture_effect_normalization (s : CamSession) (img : Img)
    (rest : List (Option Img)) (filename : String) :
    ((capture s (some img :: rest) filename none).2 = none ∧
      dictLookup (capture s (some img :: rest) filename none).1.1.captures filename =
        some (img, "none")) ∧
    ((capture s (some img :: rest) filename (some "BLUR")).2 = none ∧
      dictLookup (capture s (some img :: rest) filename (some "BLUR")).1.1.captures
        filename = some (img, "blur")) ∧
    (∀ effect : Option String, pyLower (pyStr effect) ∉ IMAGE_EFFECTS →
      (capture s (some img :: rest) filename effect).2 =
        some (CamError.valueError (invalidEffectMsg (pyLower (pyStr effect))))) := by
  have hnone : pyLower (pyStr none) = "none" := by decide
  have hblur : pyLower (pyStr (some "BLUR")) = "blur" := by decide
  refine ⟨?_, ?_, ?_⟩
  · simp only [capture, hnone]
    rw [if_neg (not_not_intro (by decide : ("none" : String) ∈ IMAGE_EFFECTS))]
    exact ⟨rfl, dictLookup_dictInsert_self ..⟩
  · simp only [capture, hblur]
    rw [if_neg (not_not_intro (by decide : ("blur" : String) ∈ IMAGE_EFFECTS))]
    exact ⟨rfl, dictLookup_dictInsert_self ..⟩
  · intro effect h
    simp only [capture]
    rw [if_pos h]

/-- Closed instance of `capture_effect_normalization` with the rejection
hypothesis discharged at a concrete input. -/
theorem capture_effect_normalization_witness :
    (capture testSession [some [[(1, 2, 3)]]] "p.jpg" none).2 = none ∧
    (capture testSession [some [[(1, 2, 3)]]] "p.jpg" (some "ZZZ")).2 =
      some (CamError.valueError (invalidEffectMsg (pyLower (pyStr (some "ZZZ"))))) :=
  ⟨(capture_effect_normalization testSession [[(1, 2, 3)]] [] "p.jpg").1.1,
   (capture_effect_normalization testSession [[(1, 2, 3)]] [] "p.jpg").2.2
     (some "ZZZ") (by decide)⟩

lemma natCast_le_ceil_toNat (n : ℕ) (x : ℚ) (h : (n : ℚ) ≤ x) : n ≤ ⌈x⌉.toNat := by
  have h1 : (n : ℤ) ≤ ⌈x⌉ := by
    calc (n : ℤ) = ⌈(n : ℚ)⌉ := by rw [Int.ceil_natCast]
      _ ≤ ⌈x⌉ := Int.ceil_mono h
  have h0 : (0 : ℤ) ≤ ⌈x⌉ := le_trans (Int.ofNat_nonneg n) h1
  exact (Int.le_toNat h0).2 h1

lemma fit_outer_ge (source target : ℕ × ℕ) (h1 : 0 < source.1) (h2 : 0 < source.2) :
    target.1 ≤ (fit_outer source target).1 ∧ target.2 ≤ (fit_outer source target).2 := by
  have hs1 : (0 : ℚ) < (source.1 : ℚ) := by exact_mod_cast h1
  have hs2 : (0 : ℚ) < (source.2 : ℚ) := by exact_mod_cast h2
  constructor
  · apply natCast_le_ceil_toNat
    calc (target.1 : ℚ)
        = (source.1 : ℚ) * ((target.1 : ℚ) / (source.1 : ℚ)) := by field_simp
      _ ≤ (source.1 : ℚ) *
            max ((target.1 : ℚ) / (source.1 : ℚ)) ((target.2 : ℚ) / (source.2 : ℚ)) :=
          mul_le_mul_of_nonneg_left (le_max_left _ _) hs1.le
  · apply natCast_le_ceil_toNat
    calc (target.2 : ℚ)
        = (source.2 : ℚ) * ((target.2 : ℚ) / (source.2 : ℚ)) := by field_simp
      _ ≤ (source.2 : ℚ) *
            max ((target.1 : ℚ) / (source.1 : ℚ)) ((target.2 : ℚ) / (source.2 : ℚ)) :=
          mul_le_mul_of_nonneg_left (le_max_right _ _) hs2.le

lemma cvResize_length (image : Img) (size : ℕ × ℕ) :
    (cvResize image size).length = size.2 := by
  simp [cvResize]

lemma cvResize_mem_length (image : Img) (size : ℕ × ℕ) :
    ∀ row ∈ cvResize image size, row.length = size.1 := by
  intro row hrow
  rcases List.mem_map.1 hrow with ⟨r, _, rfl⟩
  simp

lemma imgWidth_eq_of_uniform (l : Img) (k : ℕ) (hne : l ≠ [])
    (h : ∀ row ∈ l, row.length = k) : imgWidth l = k := by
  cases l with
  | nil => exact absurd rfl hne
  | cons a as => exact h a (List.mem_cons_self a as)

lemma imgSlice_crop_size (image : Img) (w Rw Rh l t : ℕ)
    (hrows : ∀ row ∈ image, row.length = w)
    (hl : l + Rw ≤ w) (ht : t + Rh ≤ image.length) :
    (imgSlice image l t (l + Rw) (t + Rh)).length = Rh ∧
    ∀ row ∈ imgSlice image l t (l + Rw) (t + Rh), row.length = Rw := by
  constructor
  · simp only [imgSlice, List.length_map, List.length_take, List.length_drop]
    omega
  · intro row hrow
    rcases List.mem_map.1 hrow with ⟨orig, horig, rfl⟩
    have hmem : orig ∈ image :=
      List.mem_of_mem_drop (List.mem_of_mem_take horig)
    have hlen := hrows orig hmem
    simp only [List.length_take, List.length_drop, hlen]
    omega

/-- C7: for every raw frame with positive dimensions and every positive
configured device resolution, the fit-to-resolution step (outer aspect fit
followed by centered crop) used by both the preview pipeline and the capture
post-process yields an image whose row count, first-row width and every row
width equal the configured resolution exactly. -/
theorem fit_to_resolution_exact_size (Rw Rh : ℕ) (image : Img)
    (hw : 0 < imgWidth image) (hh : 0 < imgHeight image)
    (h1 : 0 < Rw) (h2 : 0 < Rh) :
    imgHeight (fit_to_resolution (Rw, Rh) image) = Rh ∧
    imgWidth (fit_to_resolution (Rw, Rh) image) = Rw ∧
    ∀ row ∈ fit_to_resolution (Rw, Rh) image, row.length = Rw := by
  set sz := fit_outer (imgWidth image, imgHeight image) (Rw, Rh) with hsz
  have hge := fit_outer_ge (imgWidth image, imgHeight image) (Rw, Rh) hw hh
  rw [← hsz] at hge
  have hRw : Rw ≤ sz.1 := hge.1
  have hRh : Rh ≤ sz.2 := hge.2
  have hres_len : (cvResize image sz).length = sz.2 := cvResize_length image sz
  have hres_rows : ∀ row ∈ cvResize image sz, row.length = sz.1 :=
    cvResize_mem_length image sz
  have hres_pos : 0 < (cvResize image sz).length := by rw [hres_len]; omega
  have hres_ne : cvResize image sz ≠ [] := List.length_pos.1 hres_pos
  have hres_w : imgWidth (cvResize image sz) = sz.1 :=
    imgWidth_eq_of_uniform _ _ hres_ne hres_rows
  have hres_h : imgHeight (cvResize image sz) = sz.2 := hres_len
  have hunfold : fit_to_resolution (Rw, Rh) image =
      imgSlice (cvResize image sz) ((sz.1 - Rw) / 2) ((sz.2 - Rh) / 2)
        ((sz.1 - Rw) / 2 + Rw) ((sz.2 - Rh) / 2 + Rh) := by
    simp only [fit_to_resolution, center_crop, ← hsz]
    rw [hres_w, hres_h]
  rw [hunfold]
  have hl : (sz.1 - Rw) / 2 + Rw ≤ sz.1 := by
    have := Nat.div_le_self (sz.1 - Rw) 2
    omega
  have ht : (sz.2 - Rh) / 2 + Rh ≤ (cvResize image sz).length := by
    rw [hres_len]
    have := Nat.div_le_self (sz.2 - Rh) 2
    omega
  have hmain := imgSlice_crop_size (cvResize image sz) sz.1 Rw Rh
    ((sz.1 - Rw) / 2) ((sz.2 - Rh) / 2) hres_rows hl ht
  refine ⟨hmain.1, ?_, hmain.2⟩
  apply imgWidth_eq_of_uniform _ _ ?_ hmain.2
  apply List.length_pos.1
  rw [hmain.1]
  exact h2

/-- Closed instance of `fit_to_resolution_exact_size` at a concrete 2x1 frame
and the resolution (2, 2). -/
theorem fit_to_resolution_exact_size_witness :
    imgHeight (fit_to_resolution (2, 2) [[(1, 2, 3), (4, 5, 6)]]) = 2 ∧
    imgWidth (fit_to_resolution (2, 2) [[(1, 2, 3), (4, 5, 6)]]) = 2 ∧
    ∀ row ∈ fit_to_resolution (2, 2) [[(1, 2, 3), (4, 5, 6)]], row.length = 2 :=
  fit_to_resolution_exact_size 2 2 [[(1, 2, 3), (4, 5, 6)]]
    (by decide) (by decide) (by decide) (by decide)

/-- C8: every successful capture creates exactly one pending entry keyed by
the destination (other keys untouched, key uniqueness preserved), a second
capture to the same key silently replaces the buffered frame keeping a single
entry (last-write-wins), and the spec-modelled consuming driver processes a
pending entry exactly once — afterwards the key is no longer pending and a
second consume attempt finds nothing. -/
theorem pending_capture_invariants (s : CamSession) (img img2 : Img)
    (rest rest2 : List (Option Img)) (fn : String) (eff eff2 : Option String)
    (h1 : pyLower (pyStr eff) ∈ IMAGE_EFFECTS)
    (h2 : pyLower (pyStr eff2) ∈ IMAGE_EFFECTS)
    (hnd : NodupKeys s.captures) :
    (capture s (some img :: rest) fn eff).2 = none ∧
    countKey (capture s (some img :: rest) fn eff).1.1.captures fn = 1 ∧
    NodupKeys (capture s (some img :: rest) fn eff).1.1.captures ∧
    (∀ k, k ≠ fn →
      dictLookup (capture s (some img :: rest) fn eff).1.1.captures k =
        dictLookup s.captures k) ∧
    dictLookup
      (capture (capture s (some img :: rest) fn eff).1.1
        (some img2 :: rest2) fn eff2).1.1.captures fn =
      some (img2, pyLower (pyStr eff2)) ∧
    countKey
      (capture (capture s (some img :: rest) fn eff).1.1
        (some img2 :: rest2) fn eff2).1.1.captures fn = 1 ∧
    (∃ s' out,
      consume_capture (capture s (some img :: rest) fn eff).1.1 fn = some (s', out) ∧
      dictLookup s'.captures fn = none ∧
      consume_capture s' fn = none) := by
  have ecap : ∀ (s1 : CamSession) (im : Img) (dv : List (Option Img))
      (ef : Option String), pyLower (pyStr ef) ∈ IMAGE_EFFECTS →
      capture s1 (some im :: dv) fn ef =
        (({ s1 with captures := dictInsert s1.captures fn (im, pyLower (pyStr ef)),
                    overlay := none, overlay_mask := none }, dv), none) := by
    intro s1 im dv ef hef
    simp only [capture]
    rw [if_neg (not_not_intro hef)]
    rfl
  have e1 := ecap s img rest eff h1
  have e2 := ecap (capture s (some img :: rest) fn eff).1.1 img2 rest2 eff2 h2
  have hcap1 : (capture s (some img :: rest) fn eff).1.1.captures =
      dictInsert s.captures fn (img, pyLower (pyStr eff)) := by rw [e1]
  have hnd1 : NodupKeys (capture s (some img :: rest) fn eff).1.1.captures := by
    rw [hcap1]
    exact nodupKeys_dictInsert _ _ _ hnd
  refine ⟨by rw [e1], ?_, hnd1, ?_, ?_, ?_, ?_⟩
  · rw [hcap1]
    exact countKey_dictInsert _ _ _ hnd
  · intro k hk
    rw [hcap1]
    exact dictLookup_dictInsert_ne _ _ _ _ hk
  · rw [e2]
    exact dictLookup_dictInsert_self ..
  · rw [e2]
    exact countKey_dictInsert _ _ _ hnd1
  · have hlook : dictLookup (capture s (some img :: rest) fn eff).1.1.captures fn =
        some (img, pyLower (pyStr eff)) := by
      rw [hcap1]
      exact dictLookup_dictInsert_self ..
    refine ⟨{ (capture s (some img :: rest) fn eff).1.1 with
                captures := dictErase
                  (capture s (some img :: rest) fn eff).1.1.captures fn },
      post_process_pipeline (capture s (some img :: rest) fn eff).1.1.resolution
        (capture s (some img :: rest) fn eff).1.1.capture_hflip img
        (pyLower (pyStr eff)), ?_, ?_, ?_⟩
    · rw [consume_capture, post_process_capture, hlook]
      rfl
    · exact dictLookup_dictErase_self ..
    · rw [consume_capture, post_process_capture, dictLookup_dictErase_self]
      rfl

/-- Closed instance of `pending_capture_invariants` with the effect-validity
and key-uniqueness hypotheses discharged at a concrete session. -/
theorem pending_capture_invariants_witness :
    (capture testSession [some [[(0, 0, 0)]]] "a.jpg" none).2 = none ∧
    countKey (capture testSession [some [[(0, 0, 0)]]] "a.jpg" none).1.1.captures
      "a.jpg" = 1 := by
  have h := pending_capture_invariants testSession [[(0, 0, 0)]] [[(9, 9, 9)]]
    [] [] "a.jpg" none (some "blur") (by decide) (by decide)
    (by simp [NodupKeys, dictKeys, testSession])
  exact ⟨h.1, h.2.1⟩

lemma pyIntQ_add_one_of_pos (r : ℚ) (h : 0 < r) : pyIntQ (r + 1) = ⌊r⌋ + 1 := by
  rw [pyIntQ, if_pos (by linarith : (0 : ℚ) ≤ r + 1)]
  exact_mod_cast Int.floor_add_one r

lemma den_ne_one_int_ne (r : ℚ) (h : r.den ≠ 1) (z : ℤ) : r ≠ (z : ℚ) := by
  intro hz
  apply h
  rw [hz]
  exact Rat.den_intCast z

lemma lt_int_of_le_of_den_ne_one (r : ℚ) (t : ℤ) (hle : r ≤ (t : ℚ))
    (hden : r.den ≠ 1) : r < (t : ℚ) :=
  lt_of_le_of_ne hle (den_ne_one_int_ne r hden t)

lemma floor_succ_le_of_lt_int (r : ℚ) (t : ℤ) (h : r < (t : ℚ)) : ⌊r⌋ + 1 ≤ t := by
  have : ⌊r⌋ < t := Int.floor_lt.2 h
  omega

lemma ceil_eq_floor_add_one_of_den (r : ℚ) (h : r.den ≠ 1) : ⌈r⌉ = ⌊r⌋ + 1 := by
  have h1 : ⌈r⌉ ≤ ⌊r⌋ + 1 := by
    apply Int.ceil_le.2
    push_cast
    exact (Int.lt_floor_add_one r).le
  have h2 : (⌊r⌋ : ℚ) < r :=
    lt_of_le_of_ne (Int.floor_le r) fun hh => den_ne_one_int_ne r h ⌊r⌋ hh.symm
  have h3 : ⌊r⌋ < ⌈r⌉ := by
    exact_mod_cast lt_of_lt_of_le h2 (Int.le_ceil r)
  omega

lemma countdown_loop_spec (smile : String) :
    ∀ (trace : List ℚ) (ov : Option String) (t : ℤ) (evs : List Ev),
    List.Pairwise (fun a b => b ≤ a) trace →
    (∀ r ∈ trace, 0 < r → r.den ≠ 1 ∧ r ≤ (t : ℚ)) →
    countdown_loop smile trace ov t = some evs →
    ∃ (pre : List Ev) (ds : List ℤ),
      evs = pre ++ [Ev.render smile, Ev.frame] ∧
      renderTexts pre = ds.map toString ∧
      List.Chain' (fun a b => b < a) ds ∧
      (∀ d ∈ ds, d ≤ t) ∧
      (ov ≠ none → ∀ d ∈ ds, d < t) ∧
      (∀ d ∈ ds, ∃ r ∈ trace, 0 < r ∧ d = ⌈r⌉) ∧
      (∃ r ∈ trace, r ≤ 0) := by
  intro trace
  induction trace with
  | nil =>
      intro ov t evs _ _ hloop
      simp [countdown_loop] at hloop
  | cons r rs ih =>
      intro ov t evs hpw hsam hloop
      rw [List.pairwise_cons] at hpw
      obtain ⟨hhead, hpw'⟩ := hpw
      by_cases hr0 : r ≤ 0
      · simp only [countdown_loop] at hloop
        rw [if_pos hr0] at hloop
        have hevs := Option.some.inj hloop
        refine ⟨[], [], hevs.symm, rfl, List.chain'_nil, by simp, by simp, by simp,
          ⟨r, List.mem_cons_self r rs, hr0⟩⟩
      · have hrpos : 0 < r := lt_of_not_le hr0
        obtain ⟨hden, hle⟩ := hsam r (List.mem_cons_self r rs) hrpos
        simp only [countdown_loop] at hloop
        rw [if_neg hr0] at hloop
        have hdfloor : pyIntQ (r + 1) = ⌊r⌋ + 1 := pyIntQ_add_one_of_pos r hrpos
        have hrltt : r < (t : ℚ) := lt_int_of_le_of_den_ne_one r t hle hden
        have hdle : pyIntQ (r + 1) ≤ t := by
          rw [hdfloor]
          exact floor_succ_le_of_lt_int r t hrltt
        have hceil : pyIntQ (r + 1) = ⌈r⌉ := by
          rw [hdfloor, ceil_eq_floor_add_one_of_den r hden]
        have hrsle : ∀ x ∈ rs, 0 < x → x.den ≠ 1 ∧ x ≤ ((pyIntQ (r + 1) : ℤ) : ℚ) := by
          intro x hx hxpos
          obtain ⟨hxden, _⟩ := hsam x (List.mem_cons_of_mem r hx) hxpos
          refine ⟨hxden, ?_⟩
          have hxr : x ≤ r := hhead x hx
          have hrd : r < ((pyIntQ (r + 1) : ℤ) : ℚ) := by
            rw [hdfloor]
            push_cast
            exact Int.lt_floor_add_one r
          linarith
        by_cases hcond : ov = none ∨ pyIntQ (r + 1) ≠ t
        · rw [if_pos hcond] at hloop
          rcases Option.map_eq_some'.1 hloop with ⟨restEvs, hrec, hevs⟩
          obtain ⟨pre', ds', hA, hB, hC, hD, hE, hF, hG⟩ :=
            ih (some (toString (pyIntQ (r + 1)))) (pyIntQ (r + 1)) restEvs hpw' hrsle hrec
          have hE' : ∀ x ∈ ds', x < pyIntQ (r + 1) := hE (by simp)
          refine ⟨Ev.render (toString (pyIntQ (r + 1))) :: Ev.frame :: pre',
            pyIntQ (r + 1) :: ds', ?_, ?_, ?_, ?_, ?_, ?_, ?_⟩
          · rw [← hevs, hA]
            rfl
          · simp only [renderTexts, List.map_cons]
            rw [hB]
          · rw [List.chain'_cons']
            exact ⟨fun b hb => hE' b (List.mem_of_mem_head? hb), hC⟩
          · intro x hx
            rcases List.mem_cons.1 hx with rfl | hx
            · exact hdle
            · exact le_trans (hE' x hx).le hdle
          · intro hov x hx
            have hdt : pyIntQ (r + 1) ≠ t := by
              rcases hcond with hvc | hvc
              · exact absurd hvc hov
              · exact hvc
            have hdlt : pyIntQ (r + 1) < t := lt_of_le_of_ne hdle hdt
            rcases List.mem_cons.1 hx with rfl | hx
            · exact hdlt
            · exact lt_trans (hE' x hx) hdlt
          · intro x hx
            rcases List.mem_cons.1 hx with rfl | hx
            · exact ⟨r, List.mem_cons_self r rs, hrpos, hceil⟩
            · obtain ⟨rr, hrr, hrrpos, hrrceil⟩ := hF x hx
              exact ⟨rr, List.mem_cons_of_mem r hrr, hrrpos, hrrceil⟩
          · obtain ⟨rr, hrr, hrrle⟩ := hG
            exact ⟨rr, List.mem_cons_of_mem r hrr, hrrle⟩
        · rw [if_neg hcond] at hloop
          push_neg at hcond
          obtain ⟨hovne, hdt⟩ := hcond
          rcases Option.map_eq_some'.1 hloop with ⟨restEvs, hrec, hevs⟩
          have hrsle' : ∀ x ∈ rs, 0 < x → x.den ≠ 1 ∧ x ≤ (t : ℚ) := fun x hx hxpos =>
            hsam x (List.mem_cons_of_mem r hx) hxpos
          obtain ⟨pre', ds', hA, hB, hC, hD, hE, hF, hG⟩ :=
            ih ov t restEvs hpw' hrsle' hrec
          refine ⟨Ev.frame :: pre', ds', ?_, ?_, hC, hD, fun hov => hE hov, ?_, ?_⟩
          · rw [← hevs, hA]
            rfl
          · simpa only [renderTexts] using hB
          · intro x hx
            obtain ⟨rr, hrr, hrrpos, hrrceil⟩ := hF x hx
            exact ⟨rr, List.mem_cons_of_mem r hrr, hrrpos, hrrceil⟩
          · obtain ⟨rr, hrr, hrrle⟩ := hG
            exact ⟨rr, List.mem_cons_of_mem r hrr, hrrle⟩

/-- C2: for every countdown run with truncated duration at least 1, driven by
an antitone trace of timer polls bounded by the duration (samples at
non-integer instants, as real polling yields), the overlay renders of the
loop form a strictly decreasing sequence of integers — so the overlay is
re-rendered only when the displayed remaining whole second changes, at most
once per integer — each rendered number being the ceiling of the remaining
time at its poll; the run ends with the localized smile prompt rendered
followed by exactly one final displayed frame, and a completed run implies
the timer reported a non-positive remaining time, i.e. the full duration
elapsed before returning. -/
theorem preview_countdown_rerender (smile : String) (timeout alpha : ℚ)
    (ov0 : Option String) (trace : List ℚ) (evs : List Ev)
    (ht : 1 ≤ pyIntQ timeout)
    (hmono : List.Pairwise (fun a b => b ≤ a) trace)
    (hsam : ∀ r ∈ trace, 0 < r → r.den ≠ 1 ∧ r ≤ ((pyIntQ timeout : ℤ) : ℚ))
    (hrun : preview_countdown smile timeout alpha ov0 trace = Except.ok (some evs)) :
    ∃ (pre : List Ev) (ds : List ℤ),
      evs = pre ++ [Ev.render smile, Ev.frame] ∧
      renderTexts pre = ds.map toString ∧
      List.Chain' (fun a b => b < a) ds ∧
      (∀ d ∈ ds, ∃ r ∈ trace, 0 < r ∧ d = ⌈r⌉) ∧
      (∃ r ∈ trace, r ≤ 0) := by
  have hloop : countdown_loop smile trace ov0 (pyIntQ timeout) = some evs := by
    simp only [preview_countdown] at hrun
    rw [if_neg (not_lt.2 ht)] at hrun
    simpa using hrun
  obtain ⟨pre, ds, hA, hB, hC, _, _, hF, hG⟩ :=
    countdown_loop_spec smile trace ov0 (pyIntQ timeout) evs hmono hsam hloop
  exact ⟨pre, ds, hA, hB, hC, hF, hG⟩

/-- Closed instance of `preview_countdown_rerender` on the trace of a
2-second countdown polled at remaining times 3/2, 1/2 and 0. -/
theorem preview_countdown_rerender_witness :
    ∃ (pre : List Ev) (ds : List ℤ),
      [Ev.render "2", Ev.frame, Ev.render "1", Ev.frame, Ev.render "Smile", Ev.frame]
        = pre ++ [Ev.render "Smile", Ev.frame] ∧
      renderTexts pre = ds.map toString ∧
      List.Chain' (fun a b => b < a) ds ∧
      (∀ d ∈ ds, ∃ r ∈ [(3 : ℚ)/2, 1/2, 0], 0 < r ∧ d = ⌈r⌉) ∧
      (∃ r ∈ [(3 : ℚ)/2, 1/2, 0], r ≤ 0) := by
  apply preview_countdown_rerender "Smile" 2 80 none [3/2, 1/2, 0]
    [Ev.render "2", Ev.frame, Ev.render "1", Ev.frame, Ev.render "Smile", Ev.frame]
  · decide
  · norm_num [List.pairwise_cons]
  · norm_num [pyIntQ]
  · show preview_countdown "Smile" 2 80 none [3/2, 1/2, 0] = _
    norm_num [preview_countdown, countdown_loop, pyIntQ]
    decide

end PiboothCv
